import Mathlib

/-!
Verification development for the EmojiGAN notebook (a Keras DCGAN trained on
emoji images).  The notebook's image pipeline, adversarial training loop and
network shape semantics are shallowly embedded below; pixel arithmetic is
modelled in exact rational arithmetic, `np.uint8` casts as floor-then-mod-256,
and the Keras `trainable` / `compile` interaction is modelled by recording the
trainable flag captured at each `compile` call.
-/

set_option maxHeartbeats 1000000

namespace EmojiGan

/-! ## Image data model

A raw decoded image as produced by `cv2.imread`: a (rows x cols x chans)
array of unsigned bytes.  Pixels are total functions; `Bounded` states the
uint8 range invariant. -/

structure RawImage where
  rows : ℕ
  cols : ℕ
  chans : ℕ
  px : ℕ → ℕ → ℕ → ℕ

def RawImage.Bounded (img : RawImage) : Prop :=
  ∀ r c k, img.px r c k ≤ 255

/-- An image after the final `np.asarray(images) / 255.` scaling step. -/
structure QImage where
  rows : ℕ
  cols : ℕ
  chans : ℕ
  px : ℕ → ℕ → ℕ → ℚ

/-- `np.uint8` applied to a nonnegative scalar: truncation toward zero,
wrapping modulo 256. -/
def uint8OfRat (q : ℚ) : ℕ := (Int.toNat ⌊q⌋) % 256

/-- One colour channel of `remove_transparency`, mirroring the source:
`source_mask = a * (1/255.0)`, `background_mask = 1.0 - source_mask`,
`bg_part = (bg * (1/255.0)) * background_mask`,
`source_part = (fg * (1/255.0)) * source_mask`, and
`cv2.addWeighted(bg_part, 255.0, source_part, 255.0, 0.0)` followed by
`np.uint8`.  Scalar arithmetic is modelled exactly over ℚ. -/
def composite (bg fg a : ℕ) : ℕ :=
  let sourceMask : ℚ := (a : ℚ) * (1 / 255)
  let backgroundMask : ℚ := 1 - sourceMask
  let bgPart : ℚ := ((bg : ℚ) * (1 / 255)) * backgroundMask
  let sourcePart : ℚ := ((fg : ℚ) * (1 / 255)) * sourceMask
  uint8OfRat (bgPart * 255 + sourcePart * 255 + 0)

/-- `remove_transparency(source, background_color)`: keep the first three
channels, blend each against the background colour using channel 3 (alpha)
as the blend weight. -/
def remove_transparency (source : RawImage) (background_color : ℕ) : RawImage :=
  { rows := source.rows, cols := source.cols, chans := 3,
    px := fun r c k => composite background_color (source.px r c k) (source.px r c 3) }

/-- `cv2.cvtColor(img, cv2.COLOR_BGR2RGB)`: swap channels 0 and 2. -/
def cvtColorBGR2RGB (img : RawImage) : RawImage :=
  { img with px := fun r c k => img.px r c (if k = 0 then 2 else if k = 2 then 0 else k) }

/-- Source coordinate for a destination index under `cv2.resize`'s
pixel-centre alignment: `(dst + 0.5) * srcLen / dstLen - 0.5`. -/
def srcCoord (dst srcLen dstLen : ℕ) : ℚ :=
  ((dst : ℚ) + 1 / 2) * (srcLen : ℚ) / (dstLen : ℚ) - 1 / 2

/-- Clamp an index into `[0, srcLen - 1]`. -/
def clampIdx (i srcLen : ℕ) : ℕ := min i (srcLen - 1)

/-- Round to the nearest byte value (half away from zero on nonnegative
inputs), as `cv2.resize` does when writing uint8 output. -/
def byteRound (q : ℚ) : ℕ := (Int.toNat ⌊q + 1 / 2⌋)

/-- Linear interpolation `(1 - f) * a + f * b`. -/
def lerp (f a b : ℚ) : ℚ := (1 - f) * a + f * b

/-- `cv2.resize(img, (dw, dh))` with the default bilinear interpolation:
`dsize = (dw, dh)` is `(destination width, destination height)`, so the
result has `dh` rows and `dw` columns.  Source coordinates are clamped at
the borders. -/
def resize (img : RawImage) (dw dh : ℕ) : RawImage :=
  { rows := dh, cols := dw, chans := img.chans,
    px := fun r c k =>
      let py : ℚ := max (srcCoord r img.rows dh) 0
      let qx : ℚ := max (srcCoord c img.cols dw) 0
      let y0 : ℕ := clampIdx (Int.toNat ⌊py⌋) img.rows
      let x0 : ℕ := clampIdx (Int.toNat ⌊qx⌋) img.cols
      let y1 : ℕ := clampIdx (y0 + 1) img.rows
      let x1 : ℕ := clampIdx (x0 + 1) img.cols
      let fy : ℚ := Int.fract py
      let fx : ℚ := Int.fract qx
      byteRound (lerp fy (lerp fx (img.px y0 x0 k) (img.px y0 x1 k))
                         (lerp fx (img.px y1 x0 k) (img.px y1 x1 k))) }

/-- The per-image pipeline inside `get_images`' loop: optionally remove
transparency (background colour 255), convert BGR to RGB, then
`cv2.resize(img, (height, width))` — the tuple is `dsize`, i.e.
`(destination width, destination height)`, so the destination width is
`height` and the destination height is `width`. -/
def processImage (height width : ℕ) (img : RawImage) : RawImage :=
  let img1 := if img.chans = 4 then remove_transparency img 255 else img
  let img2 := cvtColorBGR2RGB img1
  resize img2 height width

/-- The final `np.asarray(images) / 255.` scaling. -/
def scaleImage (img : RawImage) : QImage :=
  { rows := img.rows, cols := img.cols, chans := img.chans,
    px := fun r c k => (img.px r c k : ℚ) / 255 }

/-- The loop of `get_images` reading each globbed file with `cv2.imread`.
`cv2.imread` yields `None` for an unreadable or zero-byte file, and the very
next attribute access (`img.shape`) then raises, aborting the whole call:
a single failed read makes the whole result unavailable. -/
def readAll : List (Option RawImage) → Option (List RawImage)
  | [] => some []
  | none :: _ => none
  | some img :: rest => (readAll rest).map (fun l => img :: l)

/-- `get_images(image_dir, height, width)`: the directory contents are
abstracted as the list of per-file `cv2.imread` results.  Each decoded image
goes through `processImage` and the stacked array is scaled to `[0,1]`. -/
def get_images (reads : List (Option RawImage)) (height width : ℕ) :
    Option (List QImage) :=
  (readAll reads).map (fun imgs => (imgs.map (processImage height width)).map scaleImage)

/-! ## Labels and label noise (train_gan, steps 3-4) -/

/-- The additive term `0.05 * np.random.random()` applied to one label:
`u` is a uniform draw from `[0, 1)`. -/
def label_noise (u : ℚ) : ℚ := 5 / 100 * u

/-- A label after `labels += 0.05 * np.random.random(labels.shape)`.
Fake images get base `1` (`np.ones`), real images base `0` (`np.zeros`). -/
def perturb_label (base u : ℚ) : ℚ := base + label_noise u

/-- Empirical mean of a perturbed label over `n` equally spaced uniform
draws from `[0, 1)`: the discretised expectation of the label under the
noise distribution. -/
def labelMeanApprox (base : ℚ) (n : ℕ) : ℚ :=
  (∑ i in Finset.range n, perturb_label base ((i : ℚ) / (n : ℚ))) / (n : ℚ)

/-! ## Keras models and the trainable/compile interaction

A Keras model's `trainable` attribute is a mutable flag, but the set of
weights a compiled training function updates is captured when `compile` is
called; flipping the flag afterwards does not affect an already compiled
training function.  `w` is a weight-version counter: a training step that
updates a model's weights increments it. -/

structure NetModel where
  w : ℕ
  trainableFlag : Bool
  compiledTrainable : Bool
deriving DecidableEq

/-- The adversarial wrapper built by `build_gan`: it records which of the
two constituent models' weights its compiled training function updates. -/
structure GanModel where
  compiledDiscTrainable : Bool
  compiledGenTrainable : Bool
deriving DecidableEq

/-- `build_discriminator(...)`: the model is created with all layers
trainable and compiled inside the builder, so its own training function
captures `trainable = True`. -/
def build_discriminator : NetModel :=
  { w := 0, trainableFlag := true, compiledTrainable := true }

/-- `build_generator(...)`: created trainable; not compiled on its own. -/
def build_generator : NetModel :=
  { w := 0, trainableFlag := true, compiledTrainable := true }

/-- `build_gan(latent_dim, generator, discriminator, ...)`: sets
`discriminator.trainable = False` and then compiles the chained model, so
the compiled adversarial training function updates the generator's weights
but not the discriminator's.  Returns the mutated discriminator together
with the wrapper. -/
def build_gan (discriminator generator : NetModel) : NetModel × GanModel :=
  let discriminator := { discriminator with trainableFlag := false }
  (discriminator,
   { compiledDiscTrainable := discriminator.trainableFlag,
     compiledGenTrainable := generator.trainableFlag })

/-- `discriminator.train_on_batch(...)`: applies one optimiser step to the
weights captured as trainable at the discriminator's own compile. -/
def discTrainOnBatch (m : NetModel) : NetModel :=
  if m.compiledTrainable then { m with w := m.w + 1 } else m

/-- `gan.train_on_batch(...)`: applies one optimiser step to the weights
captured as trainable when the wrapper was compiled. -/
def ganTrainOnBatch (gan : GanModel) (disc gen : NetModel) : NetModel × NetModel :=
  ((if gan.compiledDiscTrainable then { disc with w := disc.w + 1 } else disc),
   (if gan.compiledGenTrainable then { gen with w := gen.w + 1 } else gen))

/-- Weight-state effect of one iteration of `train_gan`'s loop:
`discriminator.train_on_batch` followed by `gan.train_on_batch`. -/
def trainIterModels (gan : GanModel) (s : NetModel × NetModel) : NetModel × NetModel :=
  ganTrainOnBatch gan (discTrainOnBatch s.1) s.2

/-- The models as cell 18 leaves them: discriminator and generator built,
then `build_gan` run over them. -/
def initModels : (NetModel × NetModel) × GanModel :=
  let d0 := build_discriminator
  let g0 := build_generator
  let dg := build_gan d0 g0
  ((dg.1, g0), dg.2)

/-- Discriminator and generator after `n` iterations of the training loop. -/
def reachedState (n : ℕ) : NetModel × NetModel :=
  (trainIterModels initModels.2)^[n] initModels.1

/-! ## The training loop as an event trace -/

/-- A loss value returned by `train_on_batch`. -/
inductive LossVal
  | num (q : ℚ)
  | nan
  | inf
deriving DecidableEq

/-- Observable events of one `train_gan` run, in program order. -/
inductive TrainEvent
  | sampleLatent
  | generatorPredict
  | sampleRealBatch
  | assembleLabels
  | perturbLabels
  | discTrain (trainableFlagAtCall : Bool) (loss : LossVal)
  | ganTrain (loss : LossVal)
  | printLosses (step : ℕ) (dLoss aLoss : LossVal)
  | saveData (step : ℕ)
deriving DecidableEq

/-- Whether an event is a weight update (`train_on_batch` call). -/
def isUpdateEvent : TrainEvent → Bool
  | .discTrain _ _ => true
  | .ganTrain _ => true
  | _ => false

/-- Events of one loop iteration of `train_gan`, in source order: latent
sampling, generator prediction, real-batch sampling, label assembly and
perturbation, the discriminator update, a fresh latent sample, the
adversarial update, and — when `step % save_intervals == 0` — the loss
print and (if a save directory was given) the sample save. -/
def iterEvents (discFlag : Bool) (step : ℕ) (dLoss aLoss : LossVal)
    (saveIntervals : ℕ) (haveSaveDir : Bool) : List TrainEvent :=
  [.sampleLatent, .generatorPredict, .sampleRealBatch, .assembleLabels,
   .perturbLabels, .discTrain discFlag dLoss, .sampleLatent, .ganTrain aLoss]
  ++ (if step % saveIntervals = 0 then
        [.printLosses step dLoss aLoss]
          ++ (if haveSaveDir then [.saveData step] else [])
      else [])

/-- The loop of `train_gan`, recursing over the remaining iteration count.
`dL`/`aL` are step-indexed oracles for the two losses (the numeric outcome
of each `train_on_batch` call, which the control flow never inspects). -/
def trainGanAux (gan : GanModel) (dL aL : ℕ → LossVal) (saveIntervals : ℕ)
    (haveSaveDir : Bool) :
    ℕ → ℕ → NetModel × NetModel → (NetModel × NetModel) × List TrainEvent
  | 0, _, s => (s, [])
  | n + 1, step, s =>
      let evs := iterEvents s.1.trainableFlag step (dL step) (aL step)
        saveIntervals haveSaveDir
      let r := trainGanAux gan dL aL saveIntervals haveSaveDir n (step + 1)
        (trainIterModels gan s)
      (r.1, evs ++ r.2)

/-- `train_gan(discriminator, generator, gan, x_train, iterations, save_dir,
batch_size, save_intervals, save_weights)`.  `x_train` is abstracted by its
size and `save_dir` by whether one was supplied; `batch_size`, `xTrainSize`
and `save_weights` are accepted exactly as the source does. -/
def train_gan (discriminator generator : NetModel) (gan : GanModel)
    (xTrainSize iterations : ℕ) (haveSaveDir : Bool)
    (batchSize saveIntervals : ℕ) (saveWeights : Bool)
    (dL aL : ℕ → LossVal) : (NetModel × NetModel) × List TrainEvent :=
  trainGanAux gan dL aL saveIntervals haveSaveDir iterations 0
    (discriminator, generator)

/-! ## Generator network shape semantics (build_generator) -/

/-- The module-level constant `latent_dim = 100`. -/
def latent_dim : ℕ := 100

/-- Shape semantics of `layers.Dense(units, input_shape=(inputDim,))` on a
batched vector: requires the feature dimension to match. -/
def denseShape (units inputDim : ℕ) : List ℕ → Option (List ℕ)
  | [b, n] => if n = inputDim then some [b, units] else none
  | _ => none

/-- Shape semantics of `layers.Reshape(t)`: the non-batch sizes must have
the same product. -/
def reshapeShape (t : List ℕ) : List ℕ → Option (List ℕ)
  | b :: rest => if rest.prod = t.prod then some (b :: t) else none
  | [] => none

/-- Shape semantics of `layers.Conv2DTranspose(filters, …, strides=s,
padding='same')`: each spatial dimension is multiplied by the stride. -/
def conv2dTransposeSameShape (filters stride : ℕ) : List ℕ → Option (List ℕ)
  | [b, h, w, _] => some [b, stride * h, stride * w, filters]
  | _ => none

/-- Shape semantics of `layers.Conv2D(filters, …, padding='same')` with
stride 1: spatial dimensions unchanged. -/
def conv2dSameShape (filters : ℕ) : List ℕ → Option (List ℕ)
  | [b, h, w, _] => some [b, h, w, filters]
  | _ => none

/-- Output shape of the model built by
`build_generator(height, width, channels, depth, dropout)` on an input of
the given shape, following the layer stack of the source (LeakyReLU,
Dropout and Activation layers preserve shape and are omitted).  Note the
`height` and `width` parameters do not occur in the layer stack. -/
def buildGeneratorShape (height width channels depth : ℕ)
    (input : List ℕ) : Option (List ℕ) :=
  (denseShape (4 * 4 * depth * 8) latent_dim input).bind fun s1 =>
  (reshapeShape [4, 4, depth * 8] s1).bind fun s2 =>
  (conv2dTransposeSameShape (depth * 8) 2 s2).bind fun s3 =>
  (conv2dTransposeSameShape (depth * 4) 2 s3).bind fun s4 =>
  (conv2dTransposeSameShape (depth * 2) 2 s4).bind fun s5 =>
  (conv2dTransposeSameShape depth 2 s5).bind fun s6 =>
  conv2dSameShape channels s6

/-- The generator's final `layers.Activation("tanh")`, applied elementwise. -/
noncomputable def generatorOutputActivation (x : ℝ) : ℝ := Real.tanh x

/-! ## Concrete test fixtures -/

/-- A 2x2 4-channel image: column 0 fully opaque (alpha 255), column 1
fully transparent (alpha 0), all colour channels 100. -/
def alphaTestImage : RawImage :=
  { rows := 2, cols := 2, chans := 4,
    px := fun _ c k => if k = 3 then (if c = 0 then 255 else 0) else 100 }

/-- A 2x2 3-channel image with constant pixel value 7. -/
def shapeTestImage : RawImage :=
  { rows := 2, cols := 2, chans := 3, px := fun _ _ _ => 7 }

/-- The update ordering the spec prescribes, written from the spec's words:
one discriminator update strictly followed by one generator update per
iteration, for `n` iterations starting at step `step`.  Used to compare the
code's filtered event trace against the prescribed ordering. -/
def specUpdateSequence (dL aL : ℕ → LossVal) (flag : Bool) :
    ℕ → ℕ → List TrainEvent
  | 0, _ => []
  | n + 1, step =>
      .discTrain flag (dL step) :: .ganTrain (aL step)
        :: specUpdateSequence dL aL flag n (step + 1)

/-! ## Helper lemmas -/

lemma uint8OfRat_le (q : ℚ) : uint8OfRat q ≤ 255 :=
  Nat.lt_succ_iff.mp (Nat.mod_lt _ (by norm_num))

lemma uint8OfRat_natCast (m : ℕ) (h : m ≤ 255) : uint8OfRat (m : ℚ) = m := by
  unfold uint8OfRat
  rw [Int.floor_natCast, Int.toNat_natCast]
  exact Nat.mod_eq_of_lt (by omega)

lemma composite_opaque (bg fg : ℕ) (hfg : fg ≤ 255) : composite bg fg 255 = fg := by
  have h : composite bg fg 255 = uint8OfRat ((fg : ℕ) : ℚ) := by
    simp only [composite]
    congr 1
    push_cast
    ring
  rw [h, uint8OfRat_natCast fg hfg]

lemma composite_transparent (bg fg : ℕ) (hbg : bg ≤ 255) : composite bg fg 0 = bg := by
  have h : composite bg fg 0 = uint8OfRat ((bg : ℕ) : ℚ) := by
    simp only [composite]
    congr 1
    push_cast
    ring
  rw [h, uint8OfRat_natCast bg hbg]

/-! ## C5: remove_transparency at the extreme alpha values -/

/-- C5: for every 4-channel source image composited by `remove_transparency`
onto a background colour, at every pixel whose alpha is 255 the output
channel equals the source channel exactly, and at every pixel whose alpha
is 0 the output channel equals the background colour exactly (pixel
arithmetic modelled in exact rational arithmetic). -/
theorem remove_transparency_extreme_alpha (img : RawImage) (bg : ℕ)
    (hb : img.Bounded) (hbg : bg ≤ 255) (r c k : ℕ) (hk : k < 3) :
    (img.px r c 3 = 255 → (remove_transparency img bg).px r c k = img.px r c k) ∧
    (img.px r c 3 = 0 → (remove_transparency img bg).px r c k = bg) := by
  constructor <;> intro ha <;>
    simp [remove_transparency, ha, composite_opaque _ _ (hb r c k),
      composite_transparent _ _ hbg]

/-- Witness for C5 on a concrete image: the opaque pixel keeps its colour
value 100 and the transparent pixel takes the background colour 7. -/
theorem remove_transparency_extreme_alpha_witness :
    (remove_transparency alphaTestImage 7).px 0 0 1 = 100 ∧
    (remove_transparency alphaTestImage 7).px 0 1 1 = 7 := by
  have hb : alphaTestImage.Bounded := by
    intro r c k
    simp only [alphaTestImage]
    split
    · split <;> norm_num
    · norm_num
  have h1 := (remove_transparency_extreme_alpha alphaTestImage 7 hb (by norm_num)
    0 0 1 (by norm_num)).1 (by simp [alphaTestImage])
  have h2 := (remove_transparency_extreme_alpha alphaTestImage 7 hb (by norm_num)
    0 1 1 (by norm_num)).2 (by simp [alphaTestImage])
  refine ⟨?_, h2⟩
  rw [h1]
  simp [alphaTestImage]

/-! ## C2: the label noise is one-sided, not symmetric -/

/-- C2 counterexample: the claim says the additive noise term is uniformly
distributed over `[-0.05, 0.05]`, but the value `-0.01`, which lies inside
that interval, is attained by `label_noise` at no uniform draw
`u ∈ [0, 1)` whatsoever — the noise `0.05 * u` is never negative. -/
theorem label_noise_not_symmetric :
    (-(1 : ℚ) / 100) ∈ Set.Icc (-(5 : ℚ) / 100) (5 / 100) ∧
    ¬ ∃ u : ℚ, 0 ≤ u ∧ u < 1 ∧ label_noise u = -(1 : ℚ) / 100 := by
  constructor
  · constructor <;> norm_num
  · rintro ⟨u, hu0, _, he⟩
    unfold label_noise at he
    nlinarith

/-- C2 amended: each label's additive noise term `0.05 * u`, for a uniform
draw `u ∈ [0, 1)`, lies in the one-sided interval `[0, 0.05)` (and is the
image of the uniform draw under scaling by `0.05`, hence uniform on
`[0, 0.05)`, not on `[-0.05, 0.05]`). -/
theorem label_noise_range (u : ℚ) (h0 : 0 ≤ u) (h1 : u < 1) :
    0 ≤ label_noise u ∧ label_noise u < 5 / 100 := by
  unfold label_noise
  constructor <;> nlinarith

/-- Witness for C2's amended theorem at the concrete draw `u = 1/2`. -/
theorem label_noise_range_witness :
    0 ≤ label_noise (1 / 2) ∧ label_noise (1 / 2) < 5 / 100 :=
  label_noise_range (1 / 2) (by norm_num) (by norm_num)

/-! ## C9: expected fake label stays above expected real label -/

/-- C9: with fake labels initialised to 1 and real labels to 0 and the
noise `0.05 * np.random.random()` added to both, the discretised expected
value (empirical mean over any number `n > 0` of equally spaced uniform
draws) of a fake label is strictly greater than that of a real label. -/
theorem fake_label_mean_gt_real_label_mean (n : ℕ) (hn : 0 < n) :
    labelMeanApprox 1 n > labelMeanApprox 0 n := by
  have hnq : (0 : ℚ) < (n : ℚ) := by exact_mod_cast hn
  unfold labelMeanApprox
  rw [gt_iff_lt, div_lt_div_iff_of_pos_right hnq]
  refine Finset.sum_lt_sum_of_nonempty (Finset.nonempty_range_iff.mpr ?_) ?_
  · omega
  · intro i _
    unfold perturb_label
    linarith

/-- Witness for C9 at `n = 3` sample points. -/
theorem fake_label_mean_gt_real_label_mean_witness :
    labelMeanApprox 1 3 > labelMeanApprox 0 3 :=
  fake_label_mean_gt_real_label_mean 3 (by norm_num)

/-! ## C8: a failed read aborts the whole load -/

/-- C8: if any file in the directory listing is unreadable or zero-byte
(`cv2.imread` yields `None`), `get_images` aborts the entire load with an
error and returns no partial result, wherever in the listing the bad file
occurs. -/
theorem get_images_fail_fast (pre post : List (Option RawImage))
    (height width : ℕ) :
    get_images (pre ++ none :: post) height width = none := by
  unfold get_images
  suffices hs : readAll (pre ++ none :: post) = none by rw [hs]; rfl
  induction pre with
  | nil => rfl
  | cons o t ih => cases o <;> simp [readAll, ih]

/-! ## Boundedness of the image pipeline -/

lemma composite_le (bg fg a : ℕ) : composite bg fg a ≤ 255 := by
  simp only [composite]
  exact uint8OfRat_le _

lemma remove_transparency_bounded (img : RawImage) (bg : ℕ) :
    (remove_transparency img bg).Bounded :=
  fun _ _ _ => composite_le _ _ _

lemma cvtColor_bounded (img : RawImage) (hb : img.Bounded) :
    (cvtColorBGR2RGB img).Bounded :=
  fun r c _ => hb r c _

lemma byteRound_le (q : ℚ) (h255 : q ≤ 255) : byteRound q ≤ 255 := by
  unfold byteRound
  refine Int.toNat_le.mpr ?_
  have hlt : ⌊q + 1 / 2⌋ < (256 : ℤ) := by
    refine Int.floor_lt.mpr ?_
    push_cast
    linarith
  omega

lemma lerp_mem (f a b : ℚ) (hf0 : 0 ≤ f) (hf1 : f ≤ 1)
    (ha0 : 0 ≤ a) (ha : a ≤ 255) (hb0 : 0 ≤ b) (hb : b ≤ 255) :
    0 ≤ lerp f a b ∧ lerp f a b ≤ 255 := by
  unfold lerp
  constructor <;> nlinarith

lemma byteRound_lerp2_le (fy fx a b c d : ℚ)
    (hfy0 : 0 ≤ fy) (hfy1 : fy ≤ 1) (hfx0 : 0 ≤ fx) (hfx1 : fx ≤ 1)
    (ha : 0 ≤ a ∧ a ≤ 255) (hb : 0 ≤ b ∧ b ≤ 255)
    (hc : 0 ≤ c ∧ c ≤ 255) (hd : 0 ≤ d ∧ d ≤ 255) :
    byteRound (lerp fy (lerp fx a b) (lerp fx c d)) ≤ 255 := by
  have h1 := lerp_mem fx a b hfx0 hfx1 ha.1 ha.2 hb.1 hb.2
  have h2 := lerp_mem fx c d hfx0 hfx1 hc.1 hc.2 hd.1 hd.2
  have h3 := lerp_mem fy _ _ hfy0 hfy1 h1.1 h1.2 h2.1 h2.2
  exact byteRound_le _ h3.2

lemma px_cast_mem (img : RawImage) (hb : img.Bounded) (r c k : ℕ) :
    0 ≤ ((img.px r c k : ℕ) : ℚ) ∧ ((img.px r c k : ℕ) : ℚ) ≤ 255 :=
  ⟨Nat.cast_nonneg _, by exact_mod_cast hb r c k⟩

lemma resize_bounded (img : RawImage) (hb : img.Bounded) (dw dh : ℕ) :
    (resize img dw dh).Bounded := by
  intro r c k
  simp only [resize]
  exact byteRound_lerp2_le _ _ _ _ _ _
    (Int.fract_nonneg _) (le_of_lt (Int.fract_lt_one _))
    (Int.fract_nonneg _) (le_of_lt (Int.fract_lt_one _))
    (px_cast_mem img hb _ _ _) (px_cast_mem img hb _ _ _)
    (px_cast_mem img hb _ _ _) (px_cast_mem img hb _ _ _)

lemma processImage_bounded (height width : ℕ) (img : RawImage)
    (hb : img.Bounded) : (processImage height width img).Bounded := by
  unfold processImage
  refine resize_bounded _ (cvtColor_bounded _ ?_) _ _
  by_cases hc : img.chans = 4
  · simp only [hc, if_pos]
    exact remove_transparency_bounded _ _
  · simp only [hc, if_neg, ite_false]
    exact hb

lemma processImage_chans (height width : ℕ) (img : RawImage)
    (hc : img.chans = 3 ∨ img.chans = 4) :
    (processImage height width img).chans = 3 := by
  unfold processImage resize cvtColorBGR2RGB
  rcases hc with h3 | h4
  · have : ¬ img.chans = 4 := by omega
    simp [this, h3]
  · simp [h4, remove_transparency]

lemma scaleImage_px_mem (img : RawImage) (hb : img.Bounded) (r c k : ℕ) :
    0 ≤ (scaleImage img).px r c k ∧ (scaleImage img).px r c k ≤ 1 := by
  simp only [scaleImage]
  constructor
  · positivity
  · rw [div_le_one (by norm_num)]
    exact_mod_cast hb r c k

lemma readAll_mem (reads : List (Option RawImage)) (imgs : List RawImage)
    (h : readAll reads = some imgs) : ∀ x ∈ imgs, some x ∈ reads := by
  induction reads generalizing imgs with
  | nil =>
      cases h
      simp
  | cons o t ih =>
      cases o with
      | none => simp [readAll] at h
      | some a =>
          simp only [readAll, Option.map_eq_some'] at h
          obtain ⟨l, hl, rfl⟩ := h
          intro x hx
          rcases List.mem_cons.mp hx with rfl | hxl
          · exact List.mem_cons_self _ _
          · exact List.mem_cons_of_mem _ (ih l hl x hxl)

/-! ## C3: shape and value range of the loaded image array -/

/-- C3 counterexample: with target dimensions `(H, W) = (2, 3)` and one
readable 2x2 3-channel image, the per-image slice returned by `get_images`
has shape `(3, 2, 3)`, not the claimed `(H, W, 3) = (2, 3, 3)` — the
`(height, width)` tuple is passed to `cv2.resize` as `dsize`, which reads
it as `(destination width, destination height)`. -/
theorem get_images_shape_cx :
    ((get_images [some shapeTestImage] 2 3).map
        (fun l => l.map (fun o => (o.rows, o.cols, o.chans))))
      = some [(3, 2, 3)] ∧
    some [((3 : ℕ), (2 : ℕ), (3 : ℕ))] ≠ some [((2 : ℕ), (3 : ℕ), (3 : ℕ))] :=
  ⟨rfl, by decide⟩

/-- C3 amended: for every directory of readable colour images (3 or 4
channels, uint8-bounded) and target dimensions `(height, width)`, every
per-image slice of the array returned by `get_images` has shape exactly
`(width, height, 3)` — matching the source docstring
"(n x width x height x 3)" — and every element lies in `[0, 1]`. -/
theorem get_images_shape_and_range (reads : List (Option RawImage))
    (height width : ℕ) (out : List QImage)
    (hgood : ∀ img, some img ∈ reads →
      img.Bounded ∧ (img.chans = 3 ∨ img.chans = 4))
    (heq : get_images reads height width = some out) :
    ∀ o ∈ out, o.rows = width ∧ o.cols = height ∧ o.chans = 3 ∧
      ∀ r c k, 0 ≤ o.px r c k ∧ o.px r c k ≤ 1 := by
  unfold get_images at heq
  cases hra : readAll reads with
  | none => rw [hra] at heq; simp at heq
  | some imgs =>
      rw [hra] at heq
      simp only [Option.map_some', Option.some.injEq] at heq
      subst heq
      intro o ho
      simp only [List.map_map, List.mem_map, Function.comp] at ho
      obtain ⟨raw, hraw, rfl⟩ := ho
      have hr := hgood raw (readAll_mem reads imgs hra raw hraw)
      refine ⟨rfl, rfl, ?_, ?_⟩
      · exact processImage_chans height width raw hr.2
      · intro r c k
        exact scaleImage_px_mem _ (processImage_bounded height width raw hr.1) r c k

/-- Witness for C3's amended theorem at a concrete image and target
dimensions `(2, 3)`: the slice has width-many (3) rows and its first entry
lies in `[0, 1]`. -/
theorem get_images_shape_and_range_witness :
    (scaleImage (processImage 2 3 shapeTestImage)).rows = 3 ∧
    0 ≤ (scaleImage (processImage 2 3 shapeTestImage)).px 0 0 0 ∧
    (scaleImage (processImage 2 3 shapeTestImage)).px 0 0 0 ≤ 1 := by
  have h := get_images_shape_and_range [some shapeTestImage] 2 3
      [scaleImage (processImage 2 3 shapeTestImage)]
      (by
        intro img hm
        simp only [List.mem_singleton, Option.some.injEq] at hm
        subst hm
        exact ⟨fun _ _ _ => by simp [shapeTestImage], Or.inl rfl⟩)
      rfl (scaleImage (processImage 2 3 shapeTestImage))
      (List.mem_singleton.mpr rfl)
  exact ⟨h.1, (h.2.2.2 0 0 0).1, (h.2.2.2 0 0 0).2⟩

/-! ## Training-state invariants -/

lemma trainIterModels_flags (gan : GanModel) (s : NetModel × NetModel) :
    (trainIterModels gan s).1.trainableFlag = s.1.trainableFlag ∧
    (trainIterModels gan s).1.compiledTrainable = s.1.compiledTrainable ∧
    (trainIterModels gan s).2.trainableFlag = s.2.trainableFlag ∧
    (trainIterModels gan s).2.compiledTrainable = s.2.compiledTrainable := by
  unfold trainIterModels ganTrainOnBatch discTrainOnBatch
  split_ifs <;> simp

lemma reachedState_flags (n : ℕ) :
    (reachedState n).1.trainableFlag = false ∧
    (reachedState n).1.compiledTrainable = true := by
  induction n with
  | zero => decide
  | succ n ih =>
      unfold reachedState at ih ⊢
      rw [Function.iterate_succ_apply']
      have h := trainIterModels_flags initModels.2
        ((trainIterModels initModels.2)^[n] initModels.1)
      exact ⟨h.1.trans ih.1, h.2.1.trans ih.2⟩

/-! ## C1: the discriminator freeze is never undone, yet both updates work -/

/-- C1 counterexample: at the start of the second iteration — i.e. at the
moment the next `discriminator.train_on_batch` runs — the discriminator's
`trainable` flag is still `False`: `build_gan` cleared it once and
`train_gan` never restores it, contradicting the claim that it is restored
to trainable state before the next discriminator update. -/
theorem discriminator_flag_not_restored :
    (reachedState 1).1.trainableFlag = false ∧
    ¬ (reachedState 1).1.trainableFlag = true := by decide

/-- C1 amended: during every `gan.train_on_batch` the discriminator's
weights are held fixed and only the generator's weights change, and every
`discriminator.train_on_batch` does update the discriminator's weights —
not because the `trainable` flag is restored (it stays `False` from
`build_gan` on), but because the discriminator's own training function was
compiled while it was trainable, before `build_gan` froze it. -/
theorem gan_update_frame_effect (n : ℕ) :
    (reachedState n).1.trainableFlag = false ∧
    (discTrainOnBatch (reachedState n).1).w = (reachedState n).1.w + 1 ∧
    (ganTrainOnBatch initModels.2 (discTrainOnBatch (reachedState n).1)
        (reachedState n).2).1.w = (discTrainOnBatch (reachedState n).1).w ∧
    (ganTrainOnBatch initModels.2 (discTrainOnBatch (reachedState n).1)
        (reachedState n).2).2.w = (reachedState n).2.w + 1 := by
  have hf := reachedState_flags n
  have hd : initModels.2.compiledDiscTrainable = false := rfl
  have hg : initModels.2.compiledGenTrainable = true := rfl
  refine ⟨hf.1, ?_, ?_, ?_⟩
  · unfold discTrainOnBatch
    simp [hf.2]
  · unfold ganTrainOnBatch
    simp [hd]
  · unfold ganTrainOnBatch
    simp [hg]

/-! ## The filtered update trace -/

lemma iterEvents_filter (f : Bool) (step : ℕ) (d a : LossVal)
    (si : ℕ) (hs : Bool) :
    (iterEvents f step d a si hs).filter isUpdateEvent
      = [.discTrain f d, .ganTrain a] := by
  unfold iterEvents
  split_ifs <;> simp [List.filter, isUpdateEvent]

lemma trainGanAux_filter (gan : GanModel) (dL aL : ℕ → LossVal) (si : ℕ)
    (hs : Bool) :
    ∀ (n step : ℕ) (s : NetModel × NetModel),
      ((trainGanAux gan dL aL si hs n step s).2).filter isUpdateEvent
        = specUpdateSequence dL aL s.1.trainableFlag n step := by
  intro n
  induction n with
  | zero =>
      intro step s
      simp [trainGanAux, specUpdateSequence]
  | succ n ih =>
      intro step s
      simp only [trainGanAux]
      rw [List.filter_append, iterEvents_filter,
        ih (step + 1) (trainIterModels gan s),
        (trainIterModels_flags gan s).1]
      rfl

lemma specUpdateSequence_length (dL aL : ℕ → LossVal) (f : Bool) :
    ∀ (n step : ℕ), (specUpdateSequence dL aL f n step).length = 2 * n := by
  intro n
  induction n with
  | zero => intro step; rfl
  | succ n ih =>
      intro step
      simp only [specUpdateSequence, List.length_cons, ih (step + 1)]
      omega

/-! ## C4: discriminator update strictly precedes generator update -/

/-- C4: in every run of `train_gan`, the sequence of weight-update events
is exactly one `discriminator.train_on_batch` strictly followed by one
`gan.train_on_batch` per iteration — the discriminator update always
completes before the generator update begins, in every iteration. -/
theorem disc_update_strictly_before_gen_update (disc gen : NetModel)
    (gan : GanModel) (xt its : ℕ) (hsd : Bool) (bs si : ℕ) (sw : Bool)
    (dL aL : ℕ → LossVal) :
    ((train_gan disc gen gan xt its hsd bs si sw dL aL).2).filter isUpdateEvent
      = specUpdateSequence dL aL disc.trainableFlag its 0 := by
  unfold train_gan
  exact trainGanAux_filter gan dL aL si hsd its 0 (disc, gen)

/-! ## C6: non-finite losses are not detected -/

/-- C6 counterexample: with both loss oracles returning NaN from step 0 on,
a 2-iteration `train_gan` run still performs all four weight updates — the
second iteration's updates run after the first iteration's losses were
already non-finite.  Nothing terminates early, backs off a learning rate,
or surfaces the condition; the loop continues silently. -/
theorem train_gan_nan_not_detected :
    (((train_gan build_discriminator build_generator
          (build_gan build_discriminator build_generator).2 8 2 false 64 1 false
          (fun _ => LossVal.nan) (fun _ => LossVal.nan)).2).filter
        isUpdateEvent).length = 4 ∧
    ¬ (((train_gan build_discriminator build_generator
          (build_gan build_discriminator build_generator).2 8 2 false 64 1 false
          (fun _ => LossVal.nan) (fun _ => LossVal.nan)).2).filter
        isUpdateEvent).length ≤ 2 := by decide

/-- C6 amended: `train_gan` never inspects the loss values: for every loss
oracle — including ones that are NaN or infinite from the first step — it
performs exactly `2 * iterations` weight updates, i.e. every iteration runs
to completion and losses are only ever printed, never acted upon. -/
theorem train_gan_runs_all_iterations (disc gen : NetModel) (gan : GanModel)
    (xt its : ℕ) (hsd : Bool) (bs si : ℕ) (sw : Bool)
    (dL aL : ℕ → LossVal) :
    (((train_gan disc gen gan xt its hsd bs si sw dL aL).2).filter
        isUpdateEvent).length = 2 * its := by
  unfold train_gan
  rw [trainGanAux_filter gan dL aL si hsd its 0 (disc, gen),
    specUpdateSequence_length]

/-! ## C10: save_weights has no observable effect -/

/-- C10: two `train_gan` calls that differ only in the `save_weights`
argument produce identical results: the same final discriminator and
generator states and the same event trace — the parameter is accepted and
never read. -/
theorem train_gan_save_weights_irrelevant (disc gen : NetModel)
    (gan : GanModel) (xt its : ℕ) (hsd : Bool) (bs si : ℕ)
    (dL aL : ℕ → LossVal) :
    train_gan disc gen gan xt its hsd bs si true dL aL
      = train_gan disc gen gan xt its hsd bs si false dL aL := rfl

/-! ## C7: generator output shape and range -/

lemma tanh_mem_Icc (x : ℝ) : -1 ≤ Real.tanh x ∧ Real.tanh x ≤ 1 := by
  have hc : 0 < Real.cosh x := Real.cosh_pos x
  have h1 : Real.cosh x + Real.sinh x = Real.exp x := Real.cosh_add_sinh x
  have h2 : Real.cosh x - Real.sinh x = Real.exp (-x) := Real.cosh_sub_sinh x
  have he1 : 0 < Real.exp x := Real.exp_pos x
  have he2 : 0 < Real.exp (-x) := Real.exp_pos _
  rw [Real.tanh_eq_sinh_div_cosh]
  constructor
  · rw [le_div_iff₀ hc]
    linarith
  · rw [div_le_one hc]
    linarith

/-- C7 counterexample: `build_generator(height=8, width=16, channels=3,
depth=64)` applied to a batch of 2 latent vectors of length 100 outputs
shape `(2, 64, 64, 3)`, not the claimed `(B, H, W, 3) = (2, 8, 16, 3)`:
the height and width parameters never reach the layer stack, whose spatial
size is hard-coded to grow `4 → 8 → 16 → 32 → 64`. -/
theorem build_generator_shape_cx :
    buildGeneratorShape 8 16 3 64 [2, latent_dim] = some [2, 64, 64, 3] ∧
    ¬ buildGeneratorShape 8 16 3 64 [2, latent_dim] = some [2, 8, 16, 3] := by
  decide

/-- C7 amended: for every batch size B and every height, width and depth
argument, the generator built by `build_generator` maps a batch of B
latent vectors of length 100 to a batch of shape `(B, 64, 64, 3)` — the
height and width arguments are ignored — and the final tanh activation
keeps every output value in the closed interval `[-1, 1]`. -/
theorem build_generator_output (B height width depth : ℕ) :
    buildGeneratorShape height width 3 depth [B, latent_dim]
      = some [B, 64, 64, 3] ∧
    ∀ x : ℝ, -1 ≤ generatorOutputActivation x ∧ generatorOutputActivation x ≤ 1 := by
  constructor
  · simp only [buildGeneratorShape]
    rw [show denseShape (4 * 4 * depth * 8) latent_dim [B, latent_dim]
        = some [B, 4 * 4 * depth * 8] from by simp [denseShape]]
    simp only [Option.some_bind']
    rw [show reshapeShape [4, 4, depth * 8] [B, 4 * 4 * depth * 8]
        = some [B, 4, 4, depth * 8] from by
          simp only [reshapeShape, List.prod_cons, List.prod_nil]
          rw [if_pos (by ring)]]
    simp only [Option.some_bind', conv2dTransposeSameShape, conv2dSameShape]
  · intro x
    unfold generatorOutputActivation
    exact tanh_mem_Icc x

end EmojiGan
